import Mathlib

/-!
Verification of the Turbocamera two-node temperature screening system.

The development shallowly embeds the two source programs:
* `final_camera.py` — the OpenMV camera node: per-cycle temperature
  estimation with an IIR-filtered calibration state and a line protocol
  encoder;
* `esp32.py` — the ESP32 display node: line protocol decoder, presence
  gate, display/LED state machine.

Machine floats are modelled as exact rationals (`ℚ`); wire lines are
modelled as `List Char`.
-/

namespace Turbocamera

/-! ## Camera node (`final_camera.py`) -/

/-- `BASE_TEMP = 36.6` (final_camera.py line 30). -/
def BASE_TEMP : ℚ := 36.6

/-- `GAIN = 0.15` (final_camera.py line 32). -/
def GAIN : ℚ := 0.15

/-- `TARGET_DIFF = 68` (final_camera.py line 33). -/
def TARGET_DIFF : ℚ := 68

/-- `OFFSET_BANGS = 0.2` (final_camera.py line 48). -/
def OFFSET_BANGS : ℚ := 0.2

/-- `OFFSET_GLASSES = 0.5` (final_camera.py line 49). -/
def OFFSET_GLASSES : ℚ := 0.5

/-- Initial value of the persistent camera state `delta_filtered`
(final_camera.py line 67: `delta_filtered = 0`). -/
def delta_filtered_init : ℚ := 0

/-- Per-cycle observations of a detected face, as consumed by the
face-found branch of the camera main loop: the peak intensity of the
face rectangle (`face_stats.max()`, line 188) and the obstruction flags
returned by `analyze_features` (line 184). -/
structure FaceObs where
  faceMax : ℚ
  bangs : Bool
  glasses : Bool
deriving DecidableEq, Repr

/-- Per-cycle inputs of one camera main-loop iteration: the detected
face (`none` when no body or no face was found, so `face_found` stays
`False`), the background level `bg_level` (line 158) and the FPA
ambient temperature `fpa_temp` (line 154). -/
structure CamInput where
  faceObs : Option FaceObs
  bgLevel : ℚ
  fpaTemp : ℚ
deriving DecidableEq, Repr

/-- The message a camera cycle writes to the UART: either a measurement
line `"%.2f;%.2f\n"` (line 226) or the idle heartbeat
`"IDLE;FPA:%.2f;OBS:0\n"` (line 254). -/
inductive CamMsg where
  | meas (body amb : ℚ)
  | idle (amb : ℚ)
deriving DecidableEq, Repr

/-- One iteration of the camera main loop (final_camera.py lines
173–254), restricted to its measurement core: given the cycle's inputs
and the persistent state `delta_filtered`, it returns the updated state
and the emitted message.

Face-found branch (lines 180–226): `real_diff = max_val - bg_level`;
`temp_change = real_diff - TARGET_DIFF`;
`delta_filtered = delta_filtered*0.8 + temp_change*0.2`;
`raw_temp = BASE_TEMP + delta_filtered*GAIN`; `+OFFSET_BANGS` if bangs,
`+OFFSET_GLASSES` if glasses; `final_temp = max(32.0, min(42.0, ·))`;
the line `"%.2f;%.2f" % (final_temp, fpa_temp)` is written.

No-face branch (lines 249–254): `delta_filtered = delta_filtered*0.95`
and the IDLE heartbeat is written. -/
def cameraCycle (inp : CamInput) (delta_filtered : ℚ) : ℚ × CamMsg :=
  match inp.faceObs with
  | some f =>
      let real_diff := f.faceMax - inp.bgLevel
      let temp_change := real_diff - TARGET_DIFF
      let delta' := delta_filtered * 0.8 + temp_change * 0.2
      let raw_temp := BASE_TEMP + delta' * GAIN
      let t1 := if f.bangs then raw_temp + OFFSET_BANGS else raw_temp
      let t2 := if f.glasses then t1 + OFFSET_GLASSES else t1
      let final_temp := max 32.0 (min 42.0 t2)
      (delta', CamMsg.meas final_temp inp.fpaTemp)
  | none => (delta_filtered * 0.95, CamMsg.idle inp.fpaTemp)

/-- The persistent state after `n` camera cycles all fed the same
per-cycle input `inp`. -/
def camIterate (inp : CamInput) : ℕ → ℚ → ℚ
  | 0, fd => fd
  | n + 1, fd => camIterate inp n (cameraCycle inp fd).1

/-! ## Wire lines as character lists

The serial line protocol is modelled over `List Char`. The helpers
below model the Python string primitives the two nodes use:
`str.strip`, `str.split`, substring containment (`in`), `float()` and
`"%.2f"` formatting. -/

/-- Python `str.strip()`: drop whitespace from both ends. -/
def stripWs (l : List Char) : List Char :=
  ((l.dropWhile Char.isWhitespace).reverse.dropWhile Char.isWhitespace).reverse

/-- Python `str.split(sep)` for a one-character separator: always
returns at least one (possibly empty) field. -/
def splitOnChar (sep : Char) : List Char → List (List Char)
  | [] => [[]]
  | c :: rest =>
      if c = sep then [] :: splitOnChar sep rest
      else
        match splitOnChar sep rest with
        | [] => [[c]]
        | p :: ps => (c :: p) :: ps

/-- Python `pat in s` substring containment: some position of `s`
starts with `pat`. -/
def containsSeq (pat : List Char) : List Char → Bool
  | [] => pat.isEmpty
  | c :: rest => pat.isPrefixOf (c :: rest) || containsSeq pat rest

/-- Numeric value of a digit character. -/
def digitVal (c : Char) : ℕ := c.toNat - 48

/-- Value of a most-significant-first digit string. -/
def digitsToNat (l : List Char) : ℕ :=
  l.foldl (fun acc c => acc * 10 + digitVal c) 0

/-- Decimal digit string of a natural number, most significant digit
first (no sign, no leading zeros except for `0` itself). -/
def natToDigits (n : ℕ) : List Char :=
  if h : n < 10 then [Char.ofNat (48 + n)]
  else natToDigits (n / 10) ++ [Char.ofNat (48 + n % 10)]
decreasing_by
  exact Nat.div_lt_self (Nat.pos_of_ne_zero (by omega)) (by omega)

/-- Python `float()` on an unsigned literal: a run of digits, an
optional point, and a run of fraction digits, with at least one digit
overall and nothing else; models the decimal fixed-point forms the
protocol uses (no exponent, no inf/nan). -/
def parseUnsigned (l : List Char) : Option ℚ :=
  let intPart := l.takeWhile Char.isDigit
  let rest := l.dropWhile Char.isDigit
  match rest with
  | [] => if intPart.isEmpty then none else some (digitsToNat intPart : ℚ)
  | c :: rest2 =>
      if c = '.' then
        let fracPart := rest2.takeWhile Char.isDigit
        let rest3 := rest2.dropWhile Char.isDigit
        if rest3.isEmpty then
          if intPart.isEmpty && fracPart.isEmpty then none
          else some ((digitsToNat intPart : ℚ) +
            (digitsToNat fracPart : ℚ) / 10 ^ fracPart.length)
        else none
      else none

/-- Python `float()` on a stripped string: optional sign, then an
unsigned decimal literal; any failure is an exception, modelled as
`none`. -/
def parseFloat (l : List Char) : Option ℚ :=
  match stripWs l with
  | [] => none
  | c :: r =>
      if c = '-' then (parseUnsigned r).map Neg.neg
      else if c = '+' then parseUnsigned r
      else parseUnsigned (c :: r)

/-- The two digit characters of a value below 100, as written by
`"%.2f"` for the fraction part. -/
def twoDigits (m : ℕ) : List Char :=
  [Char.ofNat (48 + m / 10), Char.ofNat (48 + m % 10)]

/-- Python `"%.2f" % q`: fixed-point rendering of the rational with
exactly two fraction digits. The value is rounded to the nearest
hundredth; the tie direction of the source's binary floats is modelled
as round-half-up, which the round-trip property does not depend on. -/
def fmt2 (q : ℚ) : List Char :=
  let n : ℤ := round (q * 100)
  let body := natToDigits (n.natAbs / 100) ++ '.' :: twoDigits (n.natAbs % 100)
  if n < 0 then '-' :: body else body

/-- A rational rounded to two decimal places; what `"%.2f"` displays. -/
def round2 (q : ℚ) : ℚ := (round (q * 100) : ℤ) / 100

/-- Encoder for the measurement message, final_camera.py line 226:
`uart.write("%.2f;%.2f\n" % (final_temp, fpa_temp))`. -/
def encodeMeas (body amb : ℚ) : List Char :=
  fmt2 body ++ ';' :: (fmt2 amb ++ ['\n'])

/-- Encoder for the idle heartbeat, final_camera.py line 254:
`uart.write("IDLE;FPA:%.2f;OBS:0\n" % fpa_temp)`. -/
def encodeIdle (amb : ℚ) : List Char :=
  [ 'I', 'D', 'L', 'E', ';', 'F', 'P', 'A', ':' ] ++ fmt2 amb ++
    [ ';', 'O', 'B', 'S', ':', '0', '\n' ]

/-- The pattern of the decoder's idle check (`"IDLE" in text`). -/
def idlePat : List Char := [ 'I', 'D', 'L', 'E' ]

/-! ## Display node (`esp32.py`) -/

/-- Line parsing of `get_temperatures` (esp32.py lines 275–300),
applied to one received line: strip it; a line containing `"IDLE"`
yields `(None, None)`; a line without `";"` yields `(None, None)`;
otherwise split on `";"` (fewer than 2 fields would yield
`(None, None)`), parse field 0 as the body temperature, and parse the
ambient from field 1 — the substring after the last `":"` when field 1
contains one, the whole field otherwise. Any `float()` exception is
caught and yields `(None, None)`. -/
def get_temperatures (line : List Char) : Option ℚ × Option ℚ :=
  let text := stripWs line
  if containsSeq idlePat text then (none, none)
  else if ';' ∈ text then
    let parts := splitOnChar ';' text
    if parts.length < 2 then (none, none)
    else
      match parseFloat (parts.getD 0 []) with
      | none => (none, none)
      | some body =>
          let raw_amb := parts.getD 1 []
          let ambStr :=
            if ':' ∈ raw_amb then (splitOnChar ':' raw_amb).getLastD []
            else raw_amb
          match parseFloat ambStr with
          | none => (none, none)
          | some amb => (some body, some amb)
  else (none, none)

/-- `ALARM_THRESHOLD = 37.5` (esp32.py line 114). -/
def ALARM_THRESHOLD : ℚ := 37.5

/-- `DISPLAY_HOLD_TIME = 5000` ms (esp32.py line 115). -/
def DISPLAY_HOLD_TIME : ℤ := 5000

/-- The distance used by the main loop: the sensor reading, or `0`
when the read raised `OSError` (esp32.py lines 314–317). -/
def distance_read (r : Option ℚ) : ℚ := r.getD 0

/-- `is_person_in_range = (40 <= distance <= 80)` (esp32.py line 322). -/
def is_person_in_range (d : ℚ) : Bool := decide (40 ≤ d) && decide (d ≤ 80)

/-- Initial `lastitt` as set at esp32.py line 304:
`time.ticks_ms() - DISPLAY_HOLD_TIME - 1000`, as a function of the
startup tick count. -/
def lastitt_init (startTick : ℤ) : ℤ := startTick - DISPLAY_HOLD_TIME - 1000

/-- The three display modes passed to `update_display`. -/
inductive DispMode where
  | IDLE
  | MEASURE
  | HOLD
deriving DecidableEq, Repr

/-- The two status LEDs: `a` is LED A (green, normal temperature) and
`b` is LED B (red, alarm); `true` is lit (esp32.py lines 104–105). -/
structure Leds where
  a : Bool
  b : Bool
deriving DecidableEq, Repr

/-- LED effect of `update_display` (esp32.py lines 190–245). `IDLE`
turns both LEDs off (lines 213–214). `MEASURE`/`HOLD` with a value
drives them from `is_alarm = val >= ALARM_THRESHOLD` (lines 232–234).
`MEASURE`/`HOLD` with `val == None` only draws the waiting message
(line 243) and leaves both LEDs as they were. -/
def update_display_leds (mode : DispMode) (val : Option ℚ) (prev : Leds) :
    Leds :=
  match mode with
  | .IDLE => ⟨false, false⟩
  | .MEASURE | .HOLD =>
      match val with
      | some v =>
          let is_alarm := decide (ALARM_THRESHOLD ≤ v)
          ⟨!is_alarm, is_alarm⟩
      | none => prev

/-- What one display-node cycle shows (esp32.py lines 335–362): the
mode passed to `update_display` together with the displayed value. -/
structure DispOut where
  mode : DispMode
  shown : Option ℚ
deriving DecidableEq, Repr

/-- One iteration of the ESP32 main loop's display decision (esp32.py
lines 335–362), as a function of the current tick, the presence gate,
the decoded body temperature and the two persistent variables; returns
the display call made and the updated `lastitt` and
`last_valid_body_temp`.

In-range branch (lines 335–350): `lastitt = current_time`; with camera
data the reading is stored and shown in `MEASURE`; without it the
previous valid value is shown if any, else `MEASURE` with no value.

Out-of-range branch (lines 352–362): with
`time_passed < DISPLAY_HOLD_TIME` and a stored valid value, `HOLD`
shows that value; otherwise `IDLE`. -/
def displayCycle (current_time : ℤ) (in_range : Bool) (t_body : Option ℚ)
    (lastitt : ℤ) (last_valid : Option ℚ) : DispOut × ℤ × Option ℚ :=
  if in_range then
    match t_body with
    | some b => (⟨.MEASURE, some b⟩, current_time, some b)
    | none =>
        match last_valid with
        | some v => (⟨.MEASURE, some v⟩, current_time, some v)
        | none => (⟨.MEASURE, none⟩, current_time, none)
  else
    let time_passed := current_time - lastitt
    if time_passed < DISPLAY_HOLD_TIME then
      match last_valid with
      | some v => (⟨.HOLD, some v⟩, lastitt, some v)
      | none => (⟨.IDLE, none⟩, lastitt, none)
    else (⟨.IDLE, none⟩, lastitt, last_valid)

/-! ## Character and digit-string lemmas -/

lemma charOfNat_digit_toNat : ∀ d : ℕ, d < 10 →
    (Char.ofNat (48 + d)).toNat = 48 + d := by decide

lemma charOfNat_digit_isDigit : ∀ d : ℕ, d < 10 →
    (Char.ofNat (48 + d)).isDigit = true := by decide

lemma ws_not_digit (c : Char) (h : c.isWhitespace = true) :
    c.isDigit = false := by
  simp only [Char.isWhitespace, Bool.or_eq_true, decide_eq_true_eq] at h
  rcases h with ((h | h) | h) | h <;> subst h <;> decide

lemma isDigit_not_ws (c : Char) (h : c.isDigit = true) :
    c.isWhitespace = false := by
  cases hw : c.isWhitespace with
  | false => rfl
  | true => rw [ws_not_digit c hw] at h; exact absurd h (by simp)

lemma isDigit_ne (c x : Char) (h : c.isDigit = true)
    (hx : x.isDigit = false) : c ≠ x := by
  rintro rfl
  rw [h] at hx
  exact absurd hx (by simp)

lemma natToDigits_ne_nil (n : ℕ) : natToDigits n ≠ [] := by
  rw [natToDigits]
  split <;> simp

lemma mem_natToDigits {n : ℕ} {c : Char} (hc : c ∈ natToDigits n) :
    c.isDigit = true := by
  induction n using Nat.strong_induction_on with
  | _ n ih =>
    rw [natToDigits] at hc
    split at hc
    next h =>
      simp only [List.mem_singleton] at hc
      subst hc
      exact charOfNat_digit_isDigit n h
    next h =>
      rcases List.mem_append.mp hc with h1 | h2
      · exact ih (n / 10)
          (Nat.div_lt_self (Nat.pos_of_ne_zero (by omega)) (by omega)) h1
      · simp only [List.mem_singleton] at h2
        subst h2
        exact charOfNat_digit_isDigit (n % 10) (Nat.mod_lt _ (by omega))

lemma digitsToNat_append_singleton (xs : List Char) (c : Char) :
    digitsToNat (xs ++ [c]) = digitsToNat xs * 10 + digitVal c := by
  simp [digitsToNat, List.foldl_append]

lemma digitsToNat_natToDigits (n : ℕ) :
    digitsToNat (natToDigits n) = n := by
  induction n using Nat.strong_induction_on with
  | _ n ih =>
    rw [natToDigits]
    split
    next h =>
      simp [digitsToNat, digitVal, charOfNat_digit_toNat n h]
    next h =>
      rw [digitsToNat_append_singleton,
        ih (n / 10) (Nat.div_lt_self (Nat.pos_of_ne_zero (by omega)) (by omega))]
      rw [digitVal, charOfNat_digit_toNat (n % 10) (Nat.mod_lt _ (by omega))]
      omega

/-! ## takeWhile / dropWhile / strip lemmas -/

lemma takeWhile_append_all {p : Char → Bool} {xs ys : List Char}
    (h : ∀ a ∈ xs, p a = true) :
    (xs ++ ys).takeWhile p = xs ++ ys.takeWhile p := by
  induction xs with
  | nil => simp
  | cons a as ih =>
    simp [List.takeWhile_cons, h a (by simp), ih (fun a ha => h a (by simp [ha]))]

lemma dropWhile_append_all {p : Char → Bool} {xs ys : List Char}
    (h : ∀ a ∈ xs, p a = true) :
    (xs ++ ys).dropWhile p = ys.dropWhile p := by
  induction xs with
  | nil => simp
  | cons a as ih =>
    simp only [List.cons_append, List.dropWhile_cons, h a (by simp)]
    exact ih (fun a ha => h a (by simp [ha]))

lemma takeWhile_all_true {p : Char → Bool} {xs : List Char}
    (h : ∀ a ∈ xs, p a = true) : xs.takeWhile p = xs := by
  have := @takeWhile_append_all p xs [] h
  simpa using this

lemma dropWhile_all_true {p : Char → Bool} {xs : List Char}
    (h : ∀ a ∈ xs, p a = true) : xs.dropWhile p = [] := by
  have := @dropWhile_append_all p xs [] h
  simpa using this

lemma dropWhile_all_false {p : Char → Bool} {xs : List Char}
    (h : ∀ a ∈ xs, p a = false) : xs.dropWhile p = xs := by
  cases xs with
  | nil => rfl
  | cons a as => simp [List.dropWhile_cons, h a (by simp)]

lemma stripWs_no_ws {l : List Char}
    (h : ∀ c ∈ l, c.isWhitespace = false) : stripWs l = l := by
  unfold stripWs
  rw [dropWhile_all_false h,
    dropWhile_all_false (fun c hc => h c (List.mem_reverse.mp hc)),
    List.reverse_reverse]

lemma stripWs_append_newline {l : List Char}
    (h : ∀ c ∈ l, c.isWhitespace = false) : stripWs (l ++ ['\n']) = l := by
  unfold stripWs
  cases l with
  | nil => simp [List.dropWhile]
  | cons a as =>
    have ha : a.isWhitespace = false := h a (by simp)
    have h1 : List.dropWhile Char.isWhitespace ((a :: as) ++ ['\n']) =
        (a :: as) ++ ['\n'] := by
      simp [List.dropWhile_cons, ha]
    rw [h1]
    have h2 : ((a :: as) ++ ['\n']).reverse = '\n' :: (a :: as).reverse := by
      simp
    rw [h2, List.dropWhile_cons]
    simp only [show ('\n').isWhitespace = true by decide, if_true]
    rw [dropWhile_all_false (fun c hc => h c (List.mem_reverse.mp hc)),
      List.reverse_reverse]

/-! ## splitOnChar and containsSeq lemmas -/

lemma splitOnChar_ne_nil (sep : Char) (l : List Char) :
    splitOnChar sep l ≠ [] := by
  induction l with
  | nil => simp [splitOnChar]
  | cons c rest ih =>
    rw [splitOnChar]
    split
    · simp
    · cases heq : splitOnChar sep rest with
      | nil => exact absurd heq ih
      | cons p ps => simp [heq]

lemma splitOnChar_not_mem {sep : Char} {l : List Char} (h : sep ∉ l) :
    splitOnChar sep l = [l] := by
  induction l with
  | nil => rfl
  | cons c rest ih =>
    have hc : ¬ c = sep := fun he => h (he ▸ List.mem_cons_self c rest)
    rw [splitOnChar, if_neg hc, ih (fun hm => h (List.mem_cons_of_mem c hm))]

lemma splitOnChar_append {sep : Char} {xs ys : List Char} (h : sep ∉ xs) :
    splitOnChar sep (xs ++ sep :: ys) = xs :: splitOnChar sep ys := by
  induction xs with
  | nil => simp [splitOnChar]
  | cons c rest ih =>
    have hc : ¬ c = sep := fun he => h (he ▸ List.mem_cons_self c rest)
    rw [List.cons_append, splitOnChar, if_neg hc,
      ih (fun hm => h (List.mem_cons_of_mem c hm))]

lemma two_le_length_splitOnChar {sep : Char} {l : List Char}
    (h : sep ∈ l) : 2 ≤ (splitOnChar sep l).length := by
  induction l with
  | nil => simp at h
  | cons c rest ih =>
    rw [splitOnChar]
    split
    · have h1 : splitOnChar sep rest ≠ [] := splitOnChar_ne_nil sep rest
      have h2 : 1 ≤ (splitOnChar sep rest).length :=
        List.length_pos.mpr h1
      simp only [List.length_cons]
      omega
    next hc =>
      have hmem : sep ∈ rest := by
        rcases List.mem_cons.mp h with h1 | h1
        · exact absurd h1.symm hc
        · exact h1
      cases heq : splitOnChar sep rest with
      | nil => exact absurd heq (splitOnChar_ne_nil sep rest)
      | cons p ps =>
        have := ih hmem
        rw [heq] at this
        simp only [List.length_cons] at this ⊢
        omega

lemma mem_of_containsSeq_idle {l : List Char}
    (h : containsSeq idlePat l = true) : 'I' ∈ l := by
  induction l with
  | nil => simp [containsSeq, idlePat] at h
  | cons c rest ih =>
    rw [containsSeq, Bool.or_eq_true] at h
    rcases h with h1 | h2
    · rw [idlePat, List.isPrefixOf, Bool.and_eq_true] at h1
      have : 'I' = c := beq_iff_eq.mp h1.1
      exact this ▸ List.mem_cons_self c rest
    · exact List.mem_cons_of_mem c (ih h2)

/-! ## fmt2 character lemmas -/

lemma mem_twoDigits {m : ℕ} (hm : m < 100) {c : Char}
    (hc : c ∈ twoDigits m) : c.isDigit = true := by
  rcases List.mem_cons.mp hc with h1 | h1
  · exact h1 ▸ charOfNat_digit_isDigit (m / 10) (by omega)
  · simp only [twoDigits, List.mem_singleton] at h1
    exact h1 ▸ charOfNat_digit_isDigit (m % 10) (Nat.mod_lt _ (by omega))

lemma mem_fmt2 {q : ℚ} {c : Char} (hc : c ∈ fmt2 q) :
    c.isDigit = true ∨ c = '.' ∨ c = '-' := by
  simp only [fmt2] at hc
  have hbody : c ∈ natToDigits ((round (q * 100)).natAbs / 100) ++
      '.' :: twoDigits ((round (q * 100)).natAbs % 100) ∨ c = '-' := by
    split at hc
    · rcases List.mem_cons.mp hc with h1 | h1
      · exact Or.inr h1
      · exact Or.inl h1
    · exact Or.inl hc
  rcases hbody with h1 | h1
  · rcases List.mem_append.mp h1 with h2 | h2
    · exact Or.inl (mem_natToDigits h2)
    · rcases List.mem_cons.mp h2 with h3 | h3
      · exact Or.inr (Or.inl h3)
      · exact Or.inl (mem_twoDigits (Nat.mod_lt _ (by omega)) h3)
  · exact Or.inr (Or.inr h1)

lemma fmt2_no_ws (q : ℚ) : ∀ c ∈ fmt2 q, c.isWhitespace = false := by
  intro c hc
  rcases mem_fmt2 hc with h | h | h
  · exact isDigit_not_ws c h
  · subst h; decide
  · subst h; decide

lemma semicolon_not_mem_fmt2 (q : ℚ) : ';' ∉ fmt2 q := by
  intro hc
  rcases mem_fmt2 hc with h | h | h <;> exact absurd h (by decide)

lemma colon_not_mem_fmt2 (q : ℚ) : ':' ∉ fmt2 q := by
  intro hc
  rcases mem_fmt2 hc with h | h | h <;> exact absurd h (by decide)

lemma capI_not_mem_fmt2 (q : ℚ) : 'I' ∉ fmt2 q := by
  intro hc
  rcases mem_fmt2 hc with h | h | h <;> exact absurd h (by decide)

/-! ## Parsing the formatted output -/

lemma digitsToNat_twoDigits {m : ℕ} (hm : m < 100) :
    digitsToNat (twoDigits m) = m := by
  simp only [digitsToNat, twoDigits, List.foldl, digitVal,
    charOfNat_digit_toNat (m / 10) (by omega),
    charOfNat_digit_toNat (m % 10) (Nat.mod_lt _ (by omega))]
  omega

lemma length_twoDigits (m : ℕ) : (twoDigits m).length = 2 := by
  simp [twoDigits]

lemma parseUnsigned_digits_dot (k m : ℕ) (hm : m < 100) :
    parseUnsigned (natToDigits k ++ '.' :: twoDigits m) =
      some ((k : ℚ) + (m : ℚ) / 100) := by
  have hA : ∀ a ∈ natToDigits k, Char.isDigit a = true :=
    fun a ha => mem_natToDigits ha
  have hB : ∀ a ∈ twoDigits m, Char.isDigit a = true :=
    fun a ha => mem_twoDigits hm ha
  have hAne : (natToDigits k).isEmpty = false := by
    cases hh : natToDigits k with
    | nil => exact absurd hh (natToDigits_ne_nil k)
    | cons x xs => rfl
  simp only [parseUnsigned]
  rw [takeWhile_append_all hA, dropWhile_append_all hA,
    List.takeWhile_cons, List.dropWhile_cons]
  simp only [show ('.').isDigit = false by decide, Bool.false_eq_true,
    if_false, List.append_nil]
  simp only [if_true]
  rw [takeWhile_all_true hB, dropWhile_all_true hB]
  simp only [List.isEmpty_nil, hAne, Bool.false_and, Bool.false_eq_true,
    if_false, if_true, digitsToNat_natToDigits, digitsToNat_twoDigits hm,
    length_twoDigits]
  norm_num

lemma parseUnsigned_split100 (kk : ℕ) :
    parseUnsigned (natToDigits (kk / 100) ++ '.' :: twoDigits (kk % 100)) =
      some ((kk : ℚ) / 100) := by
  rw [parseUnsigned_digits_dot _ _ (Nat.mod_lt _ (by omega))]
  congr 1
  have hdm : (kk / 100) * 100 + kk % 100 = kk := by omega
  have hq : ((kk / 100 : ℕ) : ℚ) * 100 + ((kk % 100 : ℕ) : ℚ) = (kk : ℚ) := by
    exact_mod_cast congrArg (fun z : ℕ => (z : ℚ)) hdm
  field_simp
  linarith

theorem parseFloat_fmt2 (q : ℚ) : parseFloat (fmt2 q) = some (round2 q) := by
  have hstrip : stripWs (fmt2 q) = fmt2 q := stripWs_no_ws (fmt2_no_ws q)
  by_cases hneg : round (q * 100) < 0
  · have hfq : fmt2 q = '-' :: (natToDigits ((round (q * 100)).natAbs / 100) ++
        '.' :: twoDigits ((round (q * 100)).natAbs % 100)) := by
      simp [fmt2, hneg]
    unfold parseFloat
    rw [hstrip, hfq]
    dsimp only
    rw [if_pos rfl, parseUnsigned_split100]
    have habs : (((round (q * 100)).natAbs : ℕ) : ℚ) =
        -((round (q * 100) : ℤ) : ℚ) := by
      rw [Int.cast_natAbs]
      push_cast
      exact abs_of_neg (by exact_mod_cast hneg)
    simp only [Option.map_some']
    rw [round2, habs]
    ring_nf
  · obtain ⟨c, cs, hcs⟩ : ∃ c cs,
        natToDigits ((round (q * 100)).natAbs / 100) = c :: cs := by
      cases hh : natToDigits ((round (q * 100)).natAbs / 100) with
      | nil => exact absurd hh (natToDigits_ne_nil _)
      | cons c cs => exact ⟨c, cs, rfl⟩
    have hcdig : c.isDigit = true :=
      mem_natToDigits (hcs ▸ List.mem_cons_self c cs)
    have hc1 : ¬ c = '-' := isDigit_ne c '-' hcdig (by decide)
    have hc2 : ¬ c = '+' := isDigit_ne c '+' hcdig (by decide)
    have hfq : fmt2 q = c :: (cs ++
        '.' :: twoDigits ((round (q * 100)).natAbs % 100)) := by
      simp [fmt2, hneg, hcs]
    unfold parseFloat
    rw [hstrip, hfq]
    dsimp only
    rw [if_neg hc1, if_neg hc2, ← List.cons_append, ← hcs,
      parseUnsigned_split100]
    have habs : (((round (q * 100)).natAbs : ℕ) : ℚ) =
        ((round (q * 100) : ℤ) : ℚ) := by
      rw [Int.cast_natAbs]
      push_cast
      exact abs_of_nonneg (by exact_mod_cast not_lt.mp hneg)
    rw [round2, habs]

/-! ## Camera state-update lemmas -/

lemma cameraCycle_face_fst {inp : CamInput} {f : FaceObs}
    (hf : inp.faceObs = some f) (fd : ℚ) :
    (cameraCycle inp fd).1 =
      fd * 0.8 + (f.faceMax - inp.bgLevel - TARGET_DIFF) * 0.2 := by
  simp [cameraCycle, hf]

lemma cameraCycle_noface_fst {inp : CamInput} (hf : inp.faceObs = none)
    (fd : ℚ) : (cameraCycle inp fd).1 = fd * 0.95 := by
  simp [cameraCycle, hf]

lemma camIterate_face_sub {inp : CamInput} {f : FaceObs}
    (hf : inp.faceObs = some f) :
    ∀ (n : ℕ) (fd : ℚ),
      camIterate inp n fd - (f.faceMax - inp.bgLevel - TARGET_DIFF) =
        (4 / 5) ^ n * (fd - (f.faceMax - inp.bgLevel - TARGET_DIFF)) := by
  intro n
  induction n with
  | zero => intro fd; simp [camIterate]
  | succ n ih =>
    intro fd
    rw [camIterate, ih, cameraCycle_face_fst hf]
    ring

lemma camIterate_noface {inp : CamInput} (hf : inp.faceObs = none) :
    ∀ (n : ℕ) (fd : ℚ),
      camIterate inp n fd = (19 / 20) ^ n * fd := by
  intro n
  induction n with
  | zero => intro fd; simp [camIterate]
  | succ n ih =>
    intro fd
    rw [camIterate, ih, cameraCycle_noface_fst hf]
    ring

lemma pow_four_fifths_le (n : ℕ) : (4 / 5 : ℚ) ^ n ≤ 4 / (4 + n) := by
  induction n with
  | zero => norm_num
  | succ n ih =>
    have hn : (0 : ℚ) ≤ n := Nat.cast_nonneg n
    have h4n : (0 : ℚ) < 4 + n := by linarith
    have h5n : (0 : ℚ) < 4 + ((n : ℚ) + 1) := by linarith
    rw [pow_succ]
    have step : (4 / (4 + (n : ℚ))) * (4 / 5) ≤ 4 / (4 + ((n : ℚ) + 1)) := by
      rw [div_mul_div_comm, div_le_div_iff₀ (by linarith) h5n]
      ring_nf
      nlinarith
    calc (4 / 5 : ℚ) ^ n * (4 / 5) ≤ (4 / (4 + n)) * (4 / 5) := by
          apply mul_le_mul_of_nonneg_right ih
          norm_num
      _ ≤ 4 / (4 + ((n : ℚ) + 1)) := step
      _ = 4 / (4 + ((n + 1 : ℕ) : ℚ)) := by push_cast; ring_nf

lemma geom_conv (D ε : ℚ) (hD : 0 ≤ D) (hε : 0 < ε) :
    ∃ N : ℕ, ∀ n, N ≤ n → (4 / 5 : ℚ) ^ n * D < ε := by
  refine ⟨(⌈4 * D / ε⌉).toNat, fun n hn => ?_⟩
  have h1 : (4 / 5 : ℚ) ^ n ≤ 4 / (4 + n) := pow_four_fifths_le n
  have hn0 : (0 : ℚ) ≤ n := Nat.cast_nonneg n
  have h4n : (0 : ℚ) < 4 + n := by linarith
  have h2 : (4 / 5 : ℚ) ^ n * D ≤ (4 / (4 + n)) * D :=
    mul_le_mul_of_nonneg_right h1 hD
  refine lt_of_le_of_lt h2 ?_
  rw [div_mul_eq_mul_div, div_lt_iff₀ h4n]
  have h3 : 4 * D / ε ≤ (⌈4 * D / ε⌉ : ℚ) := Int.le_ceil _
  have h4 : ((⌈4 * D / ε⌉ : ℤ) : ℚ) ≤ (((⌈4 * D / ε⌉).toNat : ℕ) : ℚ) := by
    exact_mod_cast Int.self_le_toNat _
  have h5 : (((⌈4 * D / ε⌉).toNat : ℕ) : ℚ) ≤ (n : ℚ) := by
    exact_mod_cast hn
  have h6 : 4 * D / ε < 4 + n := by linarith
  have h7 : 4 * D < (4 + n) * ε := by
    have := (div_lt_iff₀ hε).mp h6
    linarith
  linarith

/-! ## Claim theorems -/

/-- C5: for every Measurement with body temperature `b` and ambient
temperature `a`, encoding it as the line `"%.2f;%.2f\n"` and
immediately decoding that line yields a Measurement whose body and
ambient values equal `b` and `a` rounded to 2 decimal places. -/
theorem c5_measurement_roundtrip (b a : ℚ) :
    get_temperatures (encodeMeas b a) = (some (round2 b), some (round2 a)) := by
  have hnows : ∀ c ∈ fmt2 b ++ ';' :: fmt2 a, c.isWhitespace = false := by
    intro c hc
    rcases List.mem_append.mp hc with h1 | h1
    · exact fmt2_no_ws b c h1
    · rcases List.mem_cons.mp h1 with h2 | h2
      · subst h2; decide
      · exact fmt2_no_ws a c h2
  have hline : stripWs (encodeMeas b a) = fmt2 b ++ ';' :: fmt2 a := by
    have he : encodeMeas b a = (fmt2 b ++ ';' :: fmt2 a) ++ ['\n'] := by
      simp [encodeMeas]
    rw [he, stripWs_append_newline hnows]
  have hIdle : containsSeq idlePat (fmt2 b ++ ';' :: fmt2 a) = false := by
    cases hh : containsSeq idlePat (fmt2 b ++ ';' :: fmt2 a) with
    | false => rfl
    | true =>
      exfalso
      have hmem := mem_of_containsSeq_idle hh
      rcases List.mem_append.mp hmem with h1 | h1
      · exact capI_not_mem_fmt2 b h1
      · rcases List.mem_cons.mp h1 with h2 | h2
        · exact absurd h2 (by decide)
        · exact capI_not_mem_fmt2 a h2
  have hsplit : splitOnChar ';' (fmt2 b ++ ';' :: fmt2 a) =
      [fmt2 b, fmt2 a] := by
    rw [splitOnChar_append (semicolon_not_mem_fmt2 b),
      splitOnChar_not_mem (semicolon_not_mem_fmt2 a)]
  have hsemi : ';' ∈ fmt2 b ++ ';' :: fmt2 a :=
    List.mem_append_right _ (List.mem_cons_self _ _)
  unfold get_temperatures
  rw [hline]
  simp only [hIdle, Bool.false_eq_true, if_false, if_pos hsemi, hsplit]
  simp only [List.length_cons, List.length_nil, List.getD,
    List.getElem?_cons_zero, List.getElem?_cons_succ, Option.getD_some]
  norm_num
  rw [parseFloat_fmt2 b]
  rw [if_neg (colon_not_mem_fmt2 a), parseFloat_fmt2 a]

/-- C1 counterexample: the decoder maps the idle line
`"IDLE;FPA:21.30;OBS:0"` to `(none, none)` — the ambient value 21.30
is not carried in the result — and this result coincides with the
result for the malformed line `"garbage"`, so the Idle outcome is not
distinguishable from the NoData outcome. -/
theorem c1_counterexample :
    get_temperatures
        [ 'I', 'D', 'L', 'E', ';', 'F', 'P', 'A', ':', '2', '1', '.', '3',
          '0', ';', 'O', 'B', 'S', ':', '0' ] = (none, none) ∧
    get_temperatures
        [ 'I', 'D', 'L', 'E', ';', 'F', 'P', 'A', ':', '2', '1', '.', '3',
          '0', ';', 'O', 'B', 'S', ':', '0' ] =
      get_temperatures [ 'g', 'a', 'r', 'b', 'a', 'g', 'e' ] := by
  constructor <;> decide

/-- C1 (amended): for every input line that contains the substring
`"IDLE"` (in particular the line `"IDLE;FPA:21.30;OBS:0"`), the
decoder returns `(none, none)`: no body temperature and also no
ambient temperature, the same result as for empty or malformed input,
so the Idle outcome is not distinguishable from the NoData outcome. -/
theorem c1_idle_no_data :
    (∀ l, containsSeq idlePat (stripWs l) = true →
      get_temperatures l = (none, none)) ∧
    get_temperatures
        [ 'I', 'D', 'L', 'E', ';', 'F', 'P', 'A', ':', '2', '1', '.', '3',
          '0', ';', 'O', 'B', 'S', ':', '0' ] = (none, none) := by
  constructor
  · intro l h
    unfold get_temperatures
    simp only [h, if_true]
  · decide

/-- C1 witness: the amended claim applied to the concrete idle
heartbeat line. -/
theorem c1_witness :
    get_temperatures [ 'I', 'D', 'L', 'E', ';', 'X' ] = (none, none) :=
  c1_idle_no_data.1 [ 'I', 'D', 'L', 'E', ';', 'X' ] (by decide)

/-- C6: for every non-IDLE input line, the decoder returns NoData when
the line splits on `';'` into fewer than 2 fields or when any numeric
field fails to parse as a float — labeled or not — (e.g. `"garbage"`,
`"36.60:x;22.10"` and `"36.60;x"` all yield NoData, with no partially
decoded result), returns
`Measurement(36.60, 22.10)` for `"36.60;22.10"`, and when field 1
contains `':'` parses only the substring after the last `':'` as the
ambient value. -/
theorem c6_decoder_robustness :
    (∀ l, containsSeq idlePat (stripWs l) = false →
      ((splitOnChar ';' (stripWs l)).length < 2 →
        get_temperatures l = (none, none)) ∧
      (parseFloat ((splitOnChar ';' (stripWs l)).getD 0 []) = none →
        get_temperatures l = (none, none)) ∧
      (∀ b, parseFloat ((splitOnChar ';' (stripWs l)).getD 0 []) = some b →
        parseFloat (if ':' ∈ (splitOnChar ';' (stripWs l)).getD 1 [] then
            (splitOnChar ':'
              ((splitOnChar ';' (stripWs l)).getD 1 [])).getLastD []
          else (splitOnChar ';' (stripWs l)).getD 1 []) = none →
        get_temperatures l = (none, none)) ∧
      (∀ b amb, ';' ∈ stripWs l →
        parseFloat ((splitOnChar ';' (stripWs l)).getD 0 []) = some b →
        ':' ∈ (splitOnChar ';' (stripWs l)).getD 1 [] →
        parseFloat ((splitOnChar ':'
            ((splitOnChar ';' (stripWs l)).getD 1 [])).getLastD []) = some amb →
        get_temperatures l = (some b, some amb))) ∧
    get_temperatures [ 'g', 'a', 'r', 'b', 'a', 'g', 'e' ] = (none, none) ∧
    get_temperatures
        [ '3', '6', '.', '6', '0', ':', 'x', ';', '2', '2', '.', '1', '0' ] =
      (none, none) ∧
    get_temperatures [ '3', '6', '.', '6', '0', ';', 'x' ] = (none, none) ∧
    get_temperatures
        [ '3', '6', '.', '6', '0', ';', '2', '2', '.', '1', '0' ] =
      (some (36.6 : ℚ), some (22.1 : ℚ)) := by
  refine ⟨fun l hI => ?_, by decide, by decide, by decide,
    by with_unfolding_all rfl⟩
  refine ⟨fun hlen => ?_, fun hp => ?_, fun b hb hamb => ?_,
    fun b amb hsemi hb hcolon hamb => ?_⟩
  · unfold get_temperatures
    simp only [hI, Bool.false_eq_true, if_false]
    by_cases hsemi : ';' ∈ stripWs l
    · exact absurd hlen (by have := two_le_length_splitOnChar hsemi; omega)
    · rw [if_neg hsemi]
  · unfold get_temperatures
    simp only [hI, Bool.false_eq_true, if_false]
    by_cases hsemi : ';' ∈ stripWs l
    · rw [if_pos hsemi]
      have h2 := two_le_length_splitOnChar hsemi
      simp only [if_neg (by omega :
        ¬ (splitOnChar ';' (stripWs l)).length < 2)]
      rw [hp]
    · rw [if_neg hsemi]
  · unfold get_temperatures
    simp only [hI, Bool.false_eq_true, if_false]
    by_cases hsemi : ';' ∈ stripWs l
    · rw [if_pos hsemi]
      have h2 := two_le_length_splitOnChar hsemi
      simp only [if_neg (by omega :
        ¬ (splitOnChar ';' (stripWs l)).length < 2)]
      rw [hb, hamb]
    · rw [if_neg hsemi]
  · unfold get_temperatures
    simp only [hI, Bool.false_eq_true, if_false]
    rw [if_pos hsemi]
    have h2 := two_le_length_splitOnChar hsemi
    simp only [if_neg (by omega :
      ¬ (splitOnChar ';' (stripWs l)).length < 2)]
    rw [hb]
    simp only [if_pos hcolon]
    rw [hamb]

/-- C6 witness: the general clauses applied to the concrete line
`"x;1"`, whose body field fails to parse. -/
theorem c6_witness :
    get_temperatures [ 'x', ';', '1' ] = (none, none) :=
  (c6_decoder_robustness.1 [ 'x', ';', '1' ] (by decide)).2.1 (by decide)

/-- C7: for every distance sample `d`, the presence gate reports
presence iff `40 ≤ d ≤ 80` (both bounds inclusive, so true at exactly
40 and 80, false at 39.999 and 80.001), and a failed ranging read is
treated as distance 0, which is outside the band, so a sensor failure
is never reported as presence. -/
theorem c7_presence_gate :
    (∀ d : ℚ, is_person_in_range d = true ↔ 40 ≤ d ∧ d ≤ 80) ∧
    is_person_in_range (distance_read none) = false ∧
    is_person_in_range 39.999 = false ∧
    is_person_in_range 80.001 = false ∧
    is_person_in_range 40 = true ∧
    is_person_in_range 80 = true := by
  refine ⟨fun d => ?_, by decide, by norm_num [is_person_in_range],
    by norm_num [is_person_in_range], by norm_num [is_person_in_range],
    by norm_num [is_person_in_range]⟩
  simp [is_person_in_range]

/-- C2: on every camera-node cycle in which a face is found, the
emitted body temperature equals
`clamp(36.6 + filteredDelta' * 0.15 + (0.2 if hasBangs) + (0.5 if
hasGlasses), 32.0, 42.0)` where
`filteredDelta' = filteredDelta*0.8 + (faceMax - bgLevel - TARGET_DIFF)*0.2`
is the updated persistent state; in particular, for every combination
of inputs and obstruction flags the emitted value lies in
`[32.0, 42.0]`. -/
theorem c2_emitted_temperature (inp : CamInput) (f : FaceObs) (fd : ℚ)
    (hf : inp.faceObs = some f) :
    (cameraCycle inp fd).2 =
      CamMsg.meas
        (max 32.0 (min 42.0
          ((36.6 : ℚ) + (fd * 0.8 + (f.faceMax - inp.bgLevel - 68) * 0.2) * 0.15 +
            (if f.bangs then (0.2 : ℚ) else 0) +
            (if f.glasses then (0.5 : ℚ) else 0))))
        inp.fpaTemp ∧
    ∀ b amb, (cameraCycle inp fd).2 = CamMsg.meas b amb →
      32 ≤ b ∧ b ≤ 42 := by
  constructor
  · rcases hb : f.bangs <;> rcases hg : f.glasses <;>
      simp only [cameraCycle, hf, hb, hg, BASE_TEMP, GAIN, TARGET_DIFF,
        OFFSET_BANGS, OFFSET_GLASSES, if_true, if_false,
        Bool.false_eq_true, Bool.true_eq_false] <;>
      norm_num
  · intro b amb h
    simp only [cameraCycle, hf, CamMsg.meas.injEq] at h
    constructor
    · rw [← h.1]
      exact le_trans (by norm_num) (le_max_left _ _)
    · rw [← h.1]
      apply max_le (by norm_num)
      exact le_trans (min_le_left _ _) (by norm_num)

/-- C2 witness: the formula and bounds at a concrete face-found
input. -/
theorem c2_witness :
    (cameraCycle ⟨some ⟨100, true, false⟩, 10, 25⟩ 0).2 =
      CamMsg.meas
        (max 32.0 (min 42.0
          ((36.6 : ℚ) + ((0 : ℚ) * 0.8 + ((100 : ℚ) - 10 - 68) * 0.2) * 0.15 +
            (if true then (0.2 : ℚ) else 0) +
            (if false then (0.5 : ℚ) else 0))))
        25 ∧
    ∀ b amb,
      (cameraCycle ⟨some ⟨100, true, false⟩, 10, 25⟩ 0).2 = CamMsg.meas b amb →
      32 ≤ b ∧ b ≤ 42 :=
  c2_emitted_temperature ⟨some ⟨100, true, false⟩, 10, 25⟩
    ⟨100, true, false⟩ 0 rfl

/-- C3: when presence is false, the display state is HOLD showing
`lastValidBodyTemp` iff `now - lastitt < 5000 ms` and a valid value
exists, otherwise IDLE showing nothing; at elapsed 4999 ms it is HOLD
and at 5001 ms IDLE; at startup `lastitt` is initialized at least
`DISPLAY_HOLD_TIME` in the past, so the device is IDLE before any
detection. -/
theorem c3_display_hold (now lastitt : ℤ) (lastValid t_body : Option ℚ) :
    (∀ v, lastValid = some v → now - lastitt < DISPLAY_HOLD_TIME →
      (displayCycle now false t_body lastitt lastValid).1 =
        ⟨.HOLD, some v⟩) ∧
    (DISPLAY_HOLD_TIME ≤ now - lastitt ∨ lastValid = none →
      (displayCycle now false t_body lastitt lastValid).1 =
        ⟨.IDLE, none⟩) ∧
    (displayCycle 4999 false none 0 (some (36.8 : ℚ))).1 =
      ⟨.HOLD, some 36.8⟩ ∧
    (displayCycle 5001 false none 0 (some (36.8 : ℚ))).1 =
      ⟨.IDLE, none⟩ ∧
    (∀ t0 : ℤ, DISPLAY_HOLD_TIME ≤ t0 - lastitt_init t0 ∧
      (displayCycle t0 false t_body (lastitt_init t0) none).1 =
        ⟨.IDLE, none⟩) := by
  refine ⟨fun v hv hlt => ?_, fun h => ?_, rfl, rfl, fun t0 => ⟨?_, ?_⟩⟩
  · subst hv
    simp only [displayCycle, Bool.false_eq_true, if_false]
    rw [if_pos hlt]
  · rcases h with h | h
    · simp only [displayCycle, Bool.false_eq_true, if_false]
      rw [if_neg (not_lt.mpr h)]
    · subst h
      simp only [displayCycle, Bool.false_eq_true, if_false]
      split <;> rfl
  · simp only [lastitt_init, DISPLAY_HOLD_TIME]
    omega
  · simp only [displayCycle, Bool.false_eq_true, if_false]
    split <;> rfl

/-- C3 witness: the HOLD clause applied at elapsed 4999 ms with a
stored value. -/
theorem c3_witness :
    (displayCycle 4999 false none 0 (some (36.8 : ℚ))).1 =
      ⟨.HOLD, some 36.8⟩ :=
  (c3_display_hold 4999 0 (some 36.8) none).1 36.8 rfl (by decide)

/-- C4: starting from any initial `filteredDelta`, iterating the
face-found update with a constant change value
`c = faceMax - bgLevel - TARGET_DIFF` makes `|filteredDelta - c|`
shrink geometrically at rate 0.8 per cycle (so `filteredDelta` comes
within any `ε > 0` of `c` in a bounded number of cycles); iterating
the no-face update makes `|filteredDelta|` shrink toward 0 at rate
exactly 0.95 per cycle. -/
theorem c4_iir_convergence (inp : CamInput) (fd : ℚ) :
    (∀ f, inp.faceObs = some f →
      |(cameraCycle inp fd).1 - (f.faceMax - inp.bgLevel - TARGET_DIFF)| =
        0.8 * |fd - (f.faceMax - inp.bgLevel - TARGET_DIFF)| ∧
      (∀ n, |camIterate inp n fd - (f.faceMax - inp.bgLevel - TARGET_DIFF)| =
        0.8 ^ n * |fd - (f.faceMax - inp.bgLevel - TARGET_DIFF)|) ∧
      (∀ ε : ℚ, 0 < ε → ∃ N, ∀ n, N ≤ n →
        |camIterate inp n fd - (f.faceMax - inp.bgLevel - TARGET_DIFF)| < ε)) ∧
    (inp.faceObs = none →
      |(cameraCycle inp fd).1| = 0.95 * |fd| ∧
      ∀ n, |camIterate inp n fd| = 0.95 ^ n * |fd|) := by
  constructor
  · intro f hf
    have h08 : (0.8 : ℚ) = 4 / 5 := by norm_num
    have hiter : ∀ n,
        |camIterate inp n fd - (f.faceMax - inp.bgLevel - TARGET_DIFF)| =
          (0.8 : ℚ) ^ n * |fd - (f.faceMax - inp.bgLevel - TARGET_DIFF)| := by
      intro n
      rw [camIterate_face_sub hf n fd, abs_mul, abs_pow, h08,
        abs_of_pos (by norm_num : (0 : ℚ) < 4 / 5)]
    refine ⟨?_, hiter, ?_⟩
    · have hstep : (cameraCycle inp fd).1 -
          (f.faceMax - inp.bgLevel - TARGET_DIFF) =
          (4 / 5) * (fd - (f.faceMax - inp.bgLevel - TARGET_DIFF)) := by
        rw [cameraCycle_face_fst hf]
        ring
      rw [hstep, abs_mul, abs_of_pos (by norm_num : (0 : ℚ) < 4 / 5), h08]
    · intro ε hε
      obtain ⟨N, hN⟩ := geom_conv
        |fd - (f.faceMax - inp.bgLevel - TARGET_DIFF)| ε (abs_nonneg _) hε
      exact ⟨N, fun n hn => by rw [hiter n, h08]; exact hN n hn⟩
  · intro hf
    have h95 : (0.95 : ℚ) = 19 / 20 := by norm_num
    constructor
    · rw [cameraCycle_noface_fst hf, abs_mul,
        abs_of_pos (by norm_num : (0 : ℚ) < (0.95 : ℚ))]
      ring
    · intro n
      rw [camIterate_noface hf n fd, abs_mul, abs_pow, h95,
        abs_of_pos (by norm_num : (0 : ℚ) < (19 / 20 : ℚ))]

/-- C4 witness: the convergence clause at a concrete input whose
constant change value is 0, with ε = 1. -/
theorem c4_witness :
    ∃ N, ∀ n, N ≤ n →
      |camIterate ⟨some ⟨78, false, false⟩, 10, 25⟩ n 100 -
        ((78 : ℚ) - 10 - TARGET_DIFF)| < 1 :=
  ((c4_iir_convergence ⟨some ⟨78, false, false⟩, 10, 25⟩ 100).1
    ⟨78, false, false⟩ rfl).2.2 1 one_pos

/-- C8: whenever a temperature value is displayed (MEASURE or HOLD
with a known value), the alarm LED is lit iff the displayed value
`≥ 37.5` (so 37.5 lights the alarm LED and 37.49 the normal LED),
exactly one of the two LEDs is lit, and in IDLE state both LEDs are
off. -/
theorem c8_alarm_indicator (mode : DispMode) (v : ℚ) (prev : Leds) :
    (mode = .MEASURE ∨ mode = .HOLD →
      ((update_display_leds mode (some v) prev).b = true ↔
        ALARM_THRESHOLD ≤ v) ∧
      (update_display_leds mode (some v) prev).a =
        !(update_display_leds mode (some v) prev).b) ∧
    update_display_leds .IDLE (some v) prev = ⟨false, false⟩ ∧
    update_display_leds .MEASURE (some (37.5 : ℚ)) prev = ⟨false, true⟩ ∧
    update_display_leds .MEASURE (some (37.49 : ℚ)) prev = ⟨true, false⟩ := by
  refine ⟨fun hm => ?_, rfl, ?_, ?_⟩
  · rcases hm with rfl | rfl <;>
      simp [update_display_leds, decide_eq_true_eq]
  · simp only [update_display_leds, Leds.mk.injEq]
    norm_num [ALARM_THRESHOLD]
  · simp only [update_display_leds, Leds.mk.injEq]
    norm_num [ALARM_THRESHOLD]

/-- C8 witness: the value-displayed clause applied at mode MEASURE
with value 38. -/
theorem c8_witness :
    ((update_display_leds .MEASURE (some (38 : ℚ)) ⟨false, false⟩).b = true ↔
      ALARM_THRESHOLD ≤ 38) ∧
    (update_display_leds .MEASURE (some (38 : ℚ)) ⟨false, false⟩).a =
      !(update_display_leds .MEASURE (some (38 : ℚ)) ⟨false, false⟩).b :=
  (c8_alarm_indicator .MEASURE 38 ⟨false, false⟩).1 (Or.inl rfl)

/-- C9: on every camera-node cycle, the persistent state
`delta_filtered` is updated exactly once, by exactly one of two
mutually exclusive transitions: the IIR update when a face is found,
or multiplication by 0.95 when no face is found; its initial value at
process start is 0. -/
theorem c9_single_update (inp : CamInput) (fd : ℚ) :
    (inp.faceObs = none → (cameraCycle inp fd).1 = fd * 0.95) ∧
    (∀ f, inp.faceObs = some f →
      (cameraCycle inp fd).1 =
        fd * 0.8 + (f.faceMax - inp.bgLevel - TARGET_DIFF) * 0.2) ∧
    (inp.faceObs = none ∨ ∃ f, inp.faceObs = some f) ∧
    delta_filtered_init = 0 := by
  refine ⟨fun h => cameraCycle_noface_fst h fd,
    fun f h => cameraCycle_face_fst h fd, ?_, rfl⟩
  cases h : inp.faceObs with
  | none => exact Or.inl rfl
  | some f => exact Or.inr ⟨f, rfl⟩

/-- C9 witness: the no-face transition at a concrete input. -/
theorem c9_witness : (cameraCycle ⟨none, 0, 25⟩ 3).1 = 3 * 0.95 :=
  (c9_single_update ⟨none, 0, 25⟩ 3).1 rfl

/-- C10: a display update with mode MEASURE and no value leaves both
LED outputs unchanged from the previous cycle rather than switching
them off; in particular an alarm LED lit on an earlier cycle remains
lit while the waiting placeholder is shown. -/
theorem c10_leds_unchanged : ∀ prev : Leds,
    update_display_leds .MEASURE none prev = prev ∧
    (update_display_leds .MEASURE none ⟨false, true⟩).b = true := by
  intro prev
  exact ⟨rfl, rfl⟩

end Turbocamera
